import Mathlib

/-!
Verification of the lithology viewer client (static/app.js).

The client is shallowly embedded: JavaScript numbers are modelled as exact
decimal values (an integer mantissa scaled by a power of ten), which covers
every value produced by parsing the decimal literals the application
handles; strings are Lean strings; null and undefined are explicit
constructors of a JS value type.  DOM construction is modelled by the pure
data each renderer computes (rows, shares, status text and CSS state
classes).
-/

namespace Lithology

/-- A JavaScript number arising in this program, represented exactly as a
decimal `man / 10 ^ exp`.  All numbers the client manipulates come from
parsing decimal numerals, so this representation is exact for them.
NaN and the infinities are not representable; the parser returns `none`
in the situations where JavaScript would produce them, which the callers
treat identically (both guard with Number.isFinite). -/
structure Dec where
  man : Int
  exp : Nat
deriving Repr, DecidableEq

/-- The rational value denoted by a `Dec`. -/
def Dec.toRat (d : Dec) : ℚ := (d.man : ℚ) / (10 : ℚ) ^ d.exp

/-- JavaScript Number.isInteger on the denoted value. -/
def Dec.isInt (d : Dec) : Bool := decide (d.man % ((10 : Int) ^ d.exp) = 0)

/-- Exact subtraction of two decimals (JavaScript float subtraction is
exact on the depth magnitudes this program handles). -/
def Dec.sub (a b : Dec) : Dec :=
  let e := max a.exp b.exp
  ⟨a.man * 10 ^ (e - a.exp) - b.man * 10 ^ (e - b.exp), e⟩

/-- Strip trailing decimal zeros: `canonAux m e` rewrites `m / 10 ^ e`
to an equal pair whose mantissa is not a multiple of ten unless the
exponent has reached zero. -/
def canonAux (m : Int) : Nat → Int × Nat
  | 0 => (m, 0)
  | e + 1 => if m % 10 = 0 then canonAux (m / 10) e else (m, e + 1)

/-- Canonical form of a decimal: same value, trailing zeros removed. -/
def Dec.canon (d : Dec) : Dec :=
  let p := canonAux d.man d.exp
  ⟨p.1, p.2⟩

/-- The character for a decimal digit. -/
def digitChar (n : Nat) : Char := Char.ofNat (48 + n % 10)

/-- Big-endian decimal digits of a natural number (with fuel; the fuel
`n + 1` always suffices). -/
def natDigitsAux : Nat → Nat → List Char
  | 0, _ => []
  | fuel + 1, n => if n < 10 then [digitChar n] else natDigitsAux fuel (n / 10) ++ [digitChar (n % 10)]

/-- Decimal rendering of a natural number, as JavaScript renders it. -/
def natStr (n : Nat) : String := ⟨natDigitsAux (n + 1) n⟩

/-- Exactly `e` fraction digits of `n` (little-endian recursion so the
last character is always the units digit of `n`). -/
def fracChars (n : Nat) : Nat → List Char
  | 0 => []
  | e + 1 => fracChars (n / 10) e ++ [digitChar (n % 10)]

/-- JavaScript Number.prototype.toString for the decimal values this
program produces: the canonical decimal numeral, with no trailing
fraction zeros, no trailing decimal point, and no exponent notation
(the depth magnitudes involved never trigger JavaScript's exponent
form). -/
def Dec.render (d : Dec) : String :=
  let c := Dec.canon d
  let n := c.man.natAbs
  let sign := if c.man < 0 then "-" else ""
  if c.exp = 0 then sign ++ natStr n
  else sign ++ natStr (n / 10 ^ c.exp) ++ "." ++ ⟨fracChars (n % 10 ^ c.exp) c.exp⟩

/-- The composition Number(x.toFixed(2)) of the source, on values:
rounding to two decimal places, ties away from zero toward plus
infinity, exactly as ECMA-262 specifies toFixed picks its numerator. -/
def Dec.round2 (d : Dec) : Dec :=
  ⟨Int.fdiv (200 * d.man + 10 ^ d.exp) (2 * 10 ^ d.exp), 2⟩

/-- A JavaScript value reaching the data paths of this client: null,
undefined, a string, or a (decimal) number. -/
inductive JSVal where
  | null
  | undef
  | str (s : String)
  | num (d : Dec)
deriving Repr, DecidableEq

/-- The whitespace stripped by String.prototype.trim, restricted to the
ASCII whitespace the application's data contains. -/
def isWS (c : Char) : Bool := c = ' ' || c = '\t' || c = '\n' || c = '\r'

/-- JavaScript String.prototype.trim: strip whitespace at both ends. -/
def jsTrim (s : String) : String :=
  ⟨((s.data.dropWhile isWS).reverse.dropWhile isWS).reverse⟩

/-- JavaScript truthiness of a `JSVal` (0 and the empty string are
falsy, as are null and undefined). -/
def truthy : JSVal → Bool
  | .null => false
  | .undef => false
  | .str s => !(s == "")
  | .num d => decide (d.man ≠ 0)

/-- JavaScript String(x) / x.toString() on the embedded values. -/
def jsValToString : JSVal → String
  | .null => "null"
  | .undef => "undefined"
  | .str s => s
  | .num d => Dec.render d

/-- The JavaScript idiom (x || DEFAULT): x when truthy, else the default. -/
def orElseVal (v dflt : JSVal) : JSVal := if truthy v then v else dflt

/-- Lower-casing as String.prototype.toLowerCase acts on the alphabet
this program's keyword table uses: ASCII letters plus the Slovenian
letters Š, Č and Ž. -/
def jsToLower (c : Char) : Char :=
  if 'A' ≤ c && c ≤ 'Z' then Char.ofNat (c.toNat + 32)
  else if c = 'Š' then 'š'
  else if c = 'Č' then 'č'
  else if c = 'Ž' then 'ž'
  else c

/-- String lower-casing (character-wise). -/
def strLower (s : String) : String := ⟨s.data.map jsToLower⟩

/-- Does the needle occur at the head of the haystack? -/
def listPrefixOf : List Char → List Char → Bool
  | [], _ => true
  | _ :: _, [] => false
  | a :: as, b :: bs => a == b && listPrefixOf as bs

/-- Does the needle occur anywhere in the haystack?  This is
String.prototype.includes. -/
def listSearch : List Char → List Char → Bool
  | n, [] => n.isEmpty
  | n, c :: rest => listPrefixOf n (c :: rest) || listSearch n rest

/-- text.includes(needle) of the source. -/
def strContains (hay needle : String) : Bool := listSearch needle.data hay.data

/-- One entry of the LITHOLOGY_SYMBOLS table: keyword stems, a display
label and a display color.  The default symbol carries no keywords
(the source object literal simply omits the field). -/
structure Symbol where
  keywords : List String
  label : String
  color : String
deriving Repr, DecidableEq

/-- The fixed, ordered keyword table of static/app.js. -/
def LITHOLOGY_SYMBOLS : List Symbol :=
  [ { keywords := ["glina", "glinast", "glinena"], label := "Clay", color := "#b07a4a" },
    { keywords := ["pesek", "pešč", "peščena"], label := "Sand", color := "#d5a651" },
    { keywords := ["melj", "meljast"], label := "Silt", color := "#c0bb7c" },
    { keywords := ["prod", "prodn"], label := "Gravel", color := "#8e7458" },
    { keywords := ["organska", "humus", "šota", "šotni"], label := "Organic material", color := "#4f6a3f" },
    { keywords := ["lapor", "laporov"], label := "Marl", color := "#6f7f99" } ]

/-- The designated default category. -/
def DEFAULT_LITHOLOGY_SYMBOL : Symbol :=
  { keywords := [], label := "Unknown lithology", color := "#6b7280" }

/-- Does some keyword of the symbol occur in the text? -/
def symbolMatches (text : String) (sy : Symbol) : Bool :=
  sy.keywords.any (fun k => strContains text k)

/-- The for-loop of inferLithologySymbol: first matching symbol, else
the default. -/
def findSymbol (text : String) : List Symbol → Symbol
  | [] => DEFAULT_LITHOLOGY_SYMBOL
  | sy :: rest => if symbolMatches text sy then sy else findSymbol text rest

/-- The lower-cased text inferLithologySymbol classifies:
(description || '').toString().toLowerCase(). -/
def descLower (v : JSVal) : String := strLower (jsValToString (orElseVal v (.str "")))

/-- inferLithologySymbol of static/app.js. -/
def inferLithologySymbol (description : JSVal) : Symbol :=
  let text := descLower description
  if text = "" then DEFAULT_LITHOLOGY_SYMBOL
  else findSymbol text LITHOLOGY_SYMBOLS

/-- Is the character an ASCII digit? -/
def isDig (c : Char) : Bool := '0' ≤ c && c ≤ '9'

/-- The natural number a big-endian digit list denotes. -/
def digitsToNat (ds : List Char) : Nat :=
  ds.foldl (fun a c => 10 * a + (c.toNat - 48)) 0

/-- Strip an optional leading sign; true means negative. -/
def splitSign : List Char → Bool × List Char
  | '+' :: rest => (false, rest)
  | '-' :: rest => (true, rest)
  | l => (false, l)

/-- Parse a complete exponent suffix: empty, or e/E, optional sign and
at least one digit. -/
def parseExpSuffix : List Char → Option Int
  | [] => some 0
  | c :: rest =>
    if c = 'e' || c = 'E' then
      let p := splitSign rest
      let q := p.2.span isDig
      if !q.1.isEmpty && q.2.isEmpty then
        some (if p.1 then -(digitsToNat q.1 : Int) else (digitsToNat q.1 : Int))
      else none
    else none

/-- Assemble sign, mantissa digits, fraction length and decimal exponent
into a decimal value: plus or minus m times 10 ^ (E - f). -/
def mkDec (neg : Bool) (m : Nat) (f : Nat) (E : Int) : Dec :=
  let sm : Int := if neg then -(m : Int) else (m : Int)
  let e : Int := E - (f : Int)
  if 0 ≤ e then ⟨sm * 10 ^ e.toNat, 0⟩ else ⟨sm, (-e).toNat⟩

/-- JavaScript Number(text) on an already trimmed, non-empty string,
restricted to the decimal grammar the application's data uses:
optional sign, digits with an optional fraction part (digits may stand
on either side of the point alone), and an optional exponent part.
`none` stands for the non-finite outcomes (NaN, the infinities), which
every caller in the source funnels through a Number.isFinite guard. -/
def jsParseNumber (s : String) : Option Dec :=
  let p := splitSign s.data
  let q := p.2.span isDig
  match q.2 with
  | '.' :: rest =>
    let r := rest.span isDig
    if q.1.isEmpty && r.1.isEmpty then none
    else (parseExpSuffix r.2).map (fun E => mkDec p.1 (digitsToNat (q.1 ++ r.1)) r.1.length E)
  | _ =>
    if q.1.isEmpty then none
    else (parseExpSuffix q.2).map (fun E => mkDec p.1 (digitsToNat q.1) 0 E)

/-- The value whose rendering formatDepth emits: integers unchanged,
anything else put through Number(x.toFixed(2)). -/
def roundedDepth (d : Dec) : Dec := if Dec.isInt d then d else Dec.round2 d

/-- formatDepth of static/app.js. -/
def formatDepth (value : JSVal) : String :=
  match value with
  | .null => "—"
  | .undef => "—"
  | v =>
    let text := jsTrim (jsValToString v)
    if text = "" then "—"
    else
      match jsParseNumber text with
      | some d => Dec.render (roundedDepth d) ++ " m"
      | none => text

/-- text.replace(',', '.') of the source: only the first comma is
replaced. -/
def replaceFirstComma : List Char → List Char
  | [] => []
  | c :: rest => if c = ',' then '.' :: rest else c :: replaceFirstComma rest

/-- parseDepthValue of static/app.js. -/
def parseDepthValue (value : JSVal) : Option Dec :=
  match value with
  | .null => none
  | .undef => none
  | v =>
    let text := jsTrim (jsValToString v)
    if text = "" then none
    else jsParseNumber ⟨replaceFirstComma text.data⟩

/-- computeIntervalSize of static/app.js.  The sign tests on the
mantissa are exactly the sign tests on the denoted thickness. -/
def computeIntervalSize (fromValue toValue : Option Dec) : Dec :=
  match fromValue, toValue with
  | some f, some t =>
    let thickness := Dec.sub t f
    if 0 < thickness.man then thickness
    else if thickness.man = 0 then ⟨5, 1⟩
    else ⟨1, 0⟩
  | _, _ => ⟨1, 0⟩

/-- One interval record of the payload ("sections" in the source):
two depth fields and a free-text description, any of which the backend
may omit or fill with arbitrary JSON scalars. -/
structure Section where
  from_depth : JSVal
  to_depth : JSVal
  description : JSVal
deriving Repr, DecidableEq

/-- One payload entry: card metadata plus its interval list.
`sections := none` models a payload whose sections field is not an
array (the source guards with Array.isArray). -/
structure Entry where
  title : JSVal
  tab_name : JSVal
  description : JSVal
  pdf_filename : JSVal
  sections : Option (List Section)
deriving Repr, DecidableEq

/-- The filter predicate of the loader:
Boolean((section.description || '').toString().trim() || section.from_depth || section.to_depth). -/
def keepSection (s : Section) : Bool :=
  !(jsTrim (jsValToString (orElseVal s.description (.str ""))) == "")
    || truthy s.from_depth || truthy s.to_depth

/-- The per-entry step of the loader's map: replace the sections by
their filtered list (an absent or non-array field becomes the empty
list). -/
def filterEntrySections (e : Entry) : Entry :=
  { e with sections := some (((e.sections).getD []).filter keepSection) }

/-- The loader's normalisation pipeline: filter each entry's sections,
then drop the entries left with no section. -/
def filterEntries (payload : List Entry) : List Entry :=
  (payload.map filterEntrySections).filter (fun e => !((e.sections).getD []).isEmpty)

/-- One rendered row of the tabular variant (createSectionTable):
formatted depths, classified symbol, raw description. -/
structure TableRow where
  fromText : String
  toText : String
  symbol : Symbol
  descr : JSVal
deriving Repr, DecidableEq

/-- The row a section produces in createSectionTable. -/
def sectionRow (s : Section) : TableRow :=
  { fromText := formatDepth s.from_depth
    toText := formatDepth s.to_depth
    symbol := inferLithologySymbol s.description
    descr := s.description }

/-- The tbody built by createSectionTable's forEach: rows appended one
per section, in order. -/
def createSectionTableRows (sections : List Section) : List TableRow :=
  sections.foldl (fun acc s => acc ++ [sectionRow s]) []

/-- The decorated interval objects createLithologyLog builds with
sections.map: parsed depths and the proportional size. -/
structure LogInterval where
  sec : Section
  fromValue : Option Dec
  toValue : Option Dec
  size : Dec
deriving Repr, DecidableEq

/-- The intervals array of createLithologyLog. -/
def logIntervals (sections : List Section) : List LogInterval :=
  sections.map (fun s =>
    let fromValue := parseDepthValue s.from_depth
    let toValue := parseDepthValue s.to_depth
    { sec := s, fromValue := fromValue, toValue := toValue
      size := computeIntervalSize fromValue toValue })

/-- intervals.reduce((sum, interval) => sum + interval.size, 0) || sections.length:
the total weight dividing every interval's share. -/
def logTotalSize (sections : List Section) : ℚ :=
  let t := (logIntervals sections).foldl (fun a i => a + i.size.toRat) 0
  if t = 0 then (sections.length : ℚ) else t

/-- One rendered band of the proportional log strip: its visual share
and its annotations. -/
structure LogRow where
  share : ℚ
  fromText : String
  toText : String
  label : String
  descr : JSVal
deriving Repr, DecidableEq

/-- The rows built by createLithologyLog's forEach over the decorated
intervals. -/
def createLithologyLogRows (sections : List Section) : List LogRow :=
  let total := logTotalSize sections
  (logIntervals sections).foldl
    (fun acc i => acc ++
      [{ share := i.size.toRat / total
         fromText := formatDepth i.sec.from_depth
         toText := formatDepth i.sec.to_depth
         label := (inferLithologySymbol i.sec.description).label
         descr := i.sec.description }]) []

/-- The outcome of the awaited fetch and JSON parse, as the try block
observes it: the fetch or response.json() threw with a message, or a
response arrived with a status and, when consumed, a body that is
either a JSON array of entries or some other JSON value (`none`). -/
inductive FetchOutcome where
  | thrown (msg : String)
  | response (status : Nat) (body : Except String (Option (List Entry)))
deriving Repr

/-- Response.ok of the fetch API: status in the inclusive range 200-299. -/
def responseOk (status : Nat) : Bool := 200 ≤ status && status ≤ 299

/-- The user-visible state the loader manipulates: the status line's
text and its three CSS state classes, the hidden flag of the entries
container, and the cards currently rendered inside it. -/
structure UIState where
  statusText : String
  success : Bool
  error : Bool
  empty : Bool
  entriesHidden : Bool
  rendered : List Entry
deriving Repr, DecidableEq

/-- The catch block: drop success and empty, set the error text, add
error.  The entries container is left untouched. -/
def setErrorState (s : UIState) (msg : String) : UIState :=
  { s with
    success := false, empty := false, error := true
    statusText := "Error loading lithology sections: " ++ msg }

/-- The first empty branch: no array or an empty array arrived. -/
def setEmptyNoLogs (s : UIState) : UIState :=
  { s with
    success := false, error := false
    statusText := "No lithology logs are available yet."
    empty := true, entriesHidden := true }

/-- loadLithology of static/app.js as a state transformer from the
fetch outcome. -/
def loadLithology (o : FetchOutcome) (s : UIState) : UIState :=
  match o with
  | .thrown msg => setErrorState s msg
  | .response status body =>
    if !responseOk status then
      setErrorState s ("Server responded with status " ++ natStr status)
    else
      match body with
      | .error msg => setErrorState s msg
      | .ok payload =>
        match payload with
        | none => setEmptyNoLogs s
        | some es =>
          if es.isEmpty then setEmptyNoLogs s
          else
            let s1 := { s with empty := false, error := false, success := false }
            let entries := filterEntries es
            if entries.isEmpty then
              { s1 with
                statusText := "No lithology logs with interval data are available yet."
                empty := true, entriesHidden := true }
            else
              { s1 with
                rendered := entries
                statusText := natStr entries.length ++ " "
                  ++ (if entries.length = 1 then "log" else "logs")
                  ++ " with lithological data loaded."
                success := true, entriesHidden := false }

/-! ## Value lemmas for the decimal model -/

theorem Dec.toRat_pos (d : Dec) : 0 < d.toRat ↔ 0 < d.man := by
  have h : (0 : ℚ) < 10 ^ d.exp := by positivity
  rw [Dec.toRat, lt_div_iff₀ h, zero_mul, Int.cast_pos]

theorem Dec.toRat_eq_zero (d : Dec) : d.toRat = 0 ↔ d.man = 0 := by
  have h : (10 : ℚ) ^ d.exp ≠ 0 := by positivity
  rw [Dec.toRat, div_eq_zero_iff]
  simp [h, Int.cast_eq_zero]

theorem Dec.toRat_neg (d : Dec) : d.toRat < 0 ↔ d.man < 0 := by
  have h : (0 : ℚ) < 10 ^ d.exp := by positivity
  rw [Dec.toRat, div_lt_iff₀ h, zero_mul, Int.cast_lt_zero]

theorem Dec.sub_toRat (a b : Dec) : (Dec.sub a b).toRat = a.toRat - b.toRat := by
  have hpow : ∀ x : Nat, x ≤ max a.exp b.exp →
      (10 : ℚ) ^ (max a.exp b.exp) = 10 ^ (max a.exp b.exp - x) * 10 ^ x := by
    intro x hx
    rw [← pow_add]
    congr 1
    omega
  have hne : ∀ x : Nat, ((10 : ℚ) ^ x) ≠ 0 := fun x => by positivity
  rw [Dec.sub, Dec.toRat, Dec.toRat, Dec.toRat]
  push_cast
  rw [sub_div]
  congr 1
  · rw [hpow a.exp (le_max_left _ _), mul_comm ((a.man : ℚ)) _, mul_div_mul_left _ _ (hne _)]
  · rw [hpow b.exp (le_max_right _ _), mul_comm ((b.man : ℚ)) _, mul_div_mul_left _ _ (hne _)]

/-- C3: computeIntervalSize returns the difference to-minus-from when both
depths are numbers and the difference is strictly positive, the fallback
weight 0.5 when both are numbers and the difference is zero, and the
default weight 1 when either depth is missing or the difference is
negative; in particular computeIntervalSize(1,5) = 4,
computeIntervalSize(2,2) = 0.5 and computeIntervalSize(null,5) = 1. -/
theorem computeIntervalSize_spec (f t : Option Dec) :
    (∀ df dt, f = some df → t = some dt →
      (0 < dt.toRat - df.toRat → (computeIntervalSize f t).toRat = dt.toRat - df.toRat) ∧
      (dt.toRat - df.toRat = 0 → (computeIntervalSize f t).toRat = 1 / 2) ∧
      (dt.toRat - df.toRat < 0 → (computeIntervalSize f t).toRat = 1)) ∧
    (f = none ∨ t = none → (computeIntervalSize f t).toRat = 1) ∧
    ((computeIntervalSize (some ⟨1, 0⟩) (some ⟨5, 0⟩)).toRat = 4 ∧
      (computeIntervalSize (some ⟨2, 0⟩) (some ⟨2, 0⟩)).toRat = 1 / 2 ∧
      (computeIntervalSize none (some ⟨5, 0⟩)).toRat = 1) := by
  refine ⟨?_, ?_, by norm_num [computeIntervalSize, Dec.sub, Dec.toRat],
    by norm_num [computeIntervalSize, Dec.sub, Dec.toRat],
    by norm_num [computeIntervalSize, Dec.toRat]⟩
  · rintro df dt rfl rfl
    refine ⟨?_, ?_, ?_⟩
    · intro hpos
      rw [← Dec.sub_toRat] at hpos ⊢
      have hm : 0 < (Dec.sub dt df).man := (Dec.toRat_pos _).mp hpos
      simp [computeIntervalSize, hm]
    · intro hz
      rw [← Dec.sub_toRat] at hz
      have hm : (Dec.sub dt df).man = 0 := (Dec.toRat_eq_zero _).mp hz
      norm_num [computeIntervalSize, hm, Dec.toRat]
    · intro hneg
      rw [← Dec.sub_toRat] at hneg
      have hm : (Dec.sub dt df).man < 0 := (Dec.toRat_neg _).mp hneg
      have h1 : ¬ 0 < (Dec.sub dt df).man := by omega
      have h2 : (Dec.sub dt df).man ≠ 0 := by omega
      norm_num [computeIntervalSize, h1, h2, Dec.toRat]
  · rintro (rfl | rfl)
    · cases t <;> norm_num [computeIntervalSize, Dec.toRat]
    · cases f <;> norm_num [computeIntervalSize, Dec.toRat]

/-- Witness for C3 at concrete inputs 1 and 5. -/
theorem computeIntervalSize_spec_witness :
    (computeIntervalSize (some ⟨1, 0⟩) (some ⟨5, 0⟩)).toRat = (⟨5, 0⟩ : Dec).toRat - (⟨1, 0⟩ : Dec).toRat := by
  have h := ((computeIntervalSize_spec (some ⟨1, 0⟩) (some ⟨5, 0⟩)).1 ⟨1, 0⟩ ⟨5, 0⟩ rfl rfl).1
  exact h (by norm_num [Dec.toRat])

/-! ## The classifier -/

theorem findSymbol_eq_find (text : String) (l : List Symbol) :
    findSymbol text l = (l.find? (symbolMatches text)).getD DEFAULT_LITHOLOGY_SYMBOL := by
  induction l with
  | nil => rfl
  | cons sy rest ih =>
    by_cases h : symbolMatches text sy
    · simp [findSymbol, h]
    · simp [findSymbol, h, ih]

theorem findSymbol_first (text : String) :
    ∀ (l : List Symbol) (i : Nat) (h : i < l.length),
      symbolMatches text (l.get ⟨i, h⟩) = true →
      (∀ j (hj : j < l.length), j < i → symbolMatches text (l.get ⟨j, hj⟩) = false) →
      findSymbol text l = l.get ⟨i, h⟩ := by
  intro l
  induction l with
  | nil => intro i h; simp at h
  | cons sy rest ih =>
    intro i h hm hbefore
    cases i with
    | zero =>
      simp only [List.get] at hm
      simp [findSymbol, hm]
    | succ i =>
      have h0 : symbolMatches text sy = false := hbefore 0 (by simp) (by omega)
      simp only [List.get] at hm ⊢
      simp only [findSymbol, h0, Bool.false_eq_true, if_false]
      exact ih i (by simp only [List.length_cons] at h; omega) hm
        (fun j hj hji => hbefore (j + 1) (by simp only [List.length_cons]; omega) (by omega))

/-- C1: for every description value, inferLithologySymbol returns the
first symbol of the ordered table some keyword of which occurs in the
lower-cased stringified description, and the default Unknown-lithology
symbol when the description is empty, absent or matches no keyword; a
description matching several categories resolves to the earliest
listed one. -/
theorem inferLithologySymbol_spec (v : JSVal) :
    inferLithologySymbol v
        = (LITHOLOGY_SYMBOLS.find? (symbolMatches (descLower v))).getD DEFAULT_LITHOLOGY_SYMBOL ∧
    ((∀ sy ∈ LITHOLOGY_SYMBOLS, symbolMatches (descLower v) sy = false) →
      inferLithologySymbol v = DEFAULT_LITHOLOGY_SYMBOL) ∧
    (descLower v = "" → inferLithologySymbol v = DEFAULT_LITHOLOGY_SYMBOL) ∧
    (∀ i (h : i < LITHOLOGY_SYMBOLS.length),
      symbolMatches (descLower v) (LITHOLOGY_SYMBOLS.get ⟨i, h⟩) = true →
      (∀ j (hj : j < LITHOLOGY_SYMBOLS.length), j < i →
        symbolMatches (descLower v) (LITHOLOGY_SYMBOLS.get ⟨j, hj⟩) = false) →
      inferLithologySymbol v = LITHOLOGY_SYMBOLS.get ⟨i, h⟩) := by
  have hempty : ∀ sy ∈ LITHOLOGY_SYMBOLS, symbolMatches "" sy = false := by decide
  have h1 : inferLithologySymbol v
      = (LITHOLOGY_SYMBOLS.find? (symbolMatches (descLower v))).getD DEFAULT_LITHOLOGY_SYMBOL := by
    by_cases he : descLower v = ""
    · rw [inferLithologySymbol]
      simp only [he, if_true, List.find?_eq_none.mpr (by simpa using hempty)]
      rfl
    · rw [inferLithologySymbol]
      simp only [he, if_false, findSymbol_eq_find]
  refine ⟨h1, ?_, ?_, ?_⟩
  · intro hnone
    rw [h1, List.find?_eq_none.mpr (by simpa using hnone)]
    rfl
  · intro he
    rw [inferLithologySymbol]
    simp [he]
  · intro i h hm hbefore
    by_cases he : descLower v = ""
    · exact absurd hm (by rw [he, hempty _ (List.get_mem _ _ _)]; simp)
    · rw [inferLithologySymbol]
      simp only [he, if_false]
      exact findSymbol_first _ _ i h hm hbefore

/-- Witness for C1: a description containing both a Clay and a Sand
keyword resolves to Clay, the earliest listed category. -/
theorem inferLithologySymbol_spec_witness :
    inferLithologySymbol (.str "Glinast pesek")
      = { keywords := ["glina", "glinast", "glinena"], label := "Clay", color := "#b07a4a" } := by
  have h := (inferLithologySymbol_spec (.str "Glinast pesek")).2.2.2 0 (by decide)
    (by decide) (fun j hj hj0 => absurd hj0 (Nat.not_lt_zero j))
  rw [h]
  rfl

/-! ## The depth formatter -/

theorem canonAux_exp_le (e : Nat) : ∀ m : Int, (canonAux m e).2 ≤ e := by
  induction e with
  | zero => intro m; simp [canonAux]
  | succ e ih =>
    intro m
    by_cases h : m % 10 = 0
    · simp only [canonAux, h, if_true]
      exact le_trans (ih _) (Nat.le_succ _)
    · simp [canonAux, h]

theorem canonAux_done (e : Nat) : ∀ m : Int,
    (canonAux m e).2 = 0 ∨ ¬ (10 : ℤ) ∣ (canonAux m e).1 := by
  induction e with
  | zero => intro m; left; rfl
  | succ e ih =>
    intro m
    by_cases h : m % 10 = 0
    · simp only [canonAux, h, if_true]
      exact ih _
    · right
      simp only [canonAux, h, if_false]
      exact fun hd => h (Int.emod_eq_zero_of_dvd hd)

theorem canonAux_isInt (e : Nat) : ∀ m : Int, (10 : ℤ) ^ e ∣ m → (canonAux m e).2 = 0 := by
  induction e with
  | zero => intro m _; rfl
  | succ e ih =>
    intro m hd
    have h10 : (10 : ℤ) ∣ m := dvd_trans (dvd_pow_self 10 (Nat.succ_ne_zero e)) hd
    have hmod : m % 10 = 0 := Int.emod_eq_zero_of_dvd h10
    simp only [canonAux, hmod, if_true]
    apply ih
    obtain ⟨k, rfl⟩ := hd
    have hk : (10 : ℤ) ^ (e + 1) * k = 10 ^ e * k * 10 := by ring
    rw [hk, Int.mul_ediv_cancel _ (by norm_num)]
    exact Dvd.intro k rfl

theorem canonAux_toRat (e : Nat) : ∀ m : Int,
    ((canonAux m e).1 : ℚ) / 10 ^ (canonAux m e).2 = (m : ℚ) / 10 ^ e := by
  induction e with
  | zero => intro m; simp [canonAux]
  | succ e ih =>
    intro m
    by_cases h : m % 10 = 0
    · have h10 : (10 : ℤ) ∣ m := Int.dvd_of_emod_eq_zero h
      simp only [canonAux, h, if_true]
      rw [ih (m / 10), Int.cast_div_charZero h10]
      push_cast
      rw [div_div, pow_succ]
      ring
    · simp [canonAux, h]

theorem Dec.canon_toRat (d : Dec) : (Dec.canon d).toRat = d.toRat := by
  rw [Dec.canon, Dec.toRat, Dec.toRat]
  exact canonAux_toRat d.exp d.man

theorem Dec.round2_toRat (d : Dec) :
    (Dec.round2 d).toRat = (⌊d.toRat * 100 + 1 / 2⌋ : ℚ) / 100 := by
  have hq : d.toRat * 100 + 1 / 2
      = ((200 * d.man + 10 ^ d.exp : ℤ) : ℚ) / ((2 * 10 ^ d.exp : ℕ) : ℚ) := by
    have h1 : ((10 : ℚ) ^ d.exp) ≠ 0 := by positivity
    rw [Dec.toRat]
    push_cast
    field_simp
    ring
  have hfloor : ⌊d.toRat * 100 + 1 / 2⌋
      = (200 * d.man + 10 ^ d.exp) / ((2 * 10 ^ d.exp : ℕ) : ℤ) := by
    rw [hq, Rat.floor_intCast_div_natCast]
  rw [Dec.round2, Dec.toRat]
  simp only
  rw [Int.fdiv_eq_ediv _ (by positivity), hfloor]
  push_cast
  norm_num

/-- C2: formatDepth returns the em-dash placeholder on null, undefined
and blank input; on input whose trimmed text parses as a finite number
it returns the canonical decimal rendering of the value rounded to at
most two decimal places (trailing zeros and a trailing point stripped,
integers without decimals, ties rounded half up) followed by the unit
suffix " m"; and it returns any other non-blank text verbatim with no
suffix. -/
theorem formatDepth_spec (v : JSVal) :
    (formatDepth .null = "—" ∧ formatDepth .undef = "—") ∧
    (jsTrim (jsValToString v) = "" → formatDepth v = "—") ∧
    (∀ d, v ≠ .null → v ≠ .undef → jsParseNumber (jsTrim (jsValToString v)) = some d →
      formatDepth v = Dec.render (roundedDepth d) ++ " m" ∧
      (Dec.canon (roundedDepth d)).exp ≤ 2 ∧
      ((Dec.canon (roundedDepth d)).exp = 0 ∨ ¬ (10 : ℤ) ∣ (Dec.canon (roundedDepth d)).man) ∧
      (Dec.isInt d = true → (Dec.canon (roundedDepth d)).exp = 0) ∧
      (Dec.canon (roundedDepth d)).toRat
        = (if Dec.isInt d then d.toRat else (⌊d.toRat * 100 + 1 / 2⌋ : ℚ) / 100)) ∧
    (v ≠ .null → v ≠ .undef → jsTrim (jsValToString v) ≠ "" →
      jsParseNumber (jsTrim (jsValToString v)) = none →
      formatDepth v = jsTrim (jsValToString v)) := by
  have hparse_empty : jsParseNumber "" = none := rfl
  refine ⟨⟨rfl, rfl⟩, ?_, ?_, ?_⟩
  · intro he
    cases v with
    | null => rfl
    | undef => rfl
    | str s => simp [formatDepth, he]
    | num d => simp [formatDepth, he]
  · intro d hn hu hp
    have hrender : formatDepth v = Dec.render (roundedDepth d) ++ " m" := by
      cases v with
      | null => exact absurd rfl hn
      | undef => exact absurd rfl hu
      | str s =>
        by_cases ht : jsTrim (jsValToString (JSVal.str s)) = ""
        · rw [ht, hparse_empty] at hp; exact absurd hp (by simp)
        · simp [formatDepth, ht, hp] at hp ⊢
      | num dd =>
        by_cases ht : jsTrim (jsValToString (JSVal.num dd)) = ""
        · rw [ht, hparse_empty] at hp; exact absurd hp (by simp)
        · simp [formatDepth, ht, hp] at hp ⊢
    refine ⟨hrender, ?_, ?_, ?_, ?_⟩
    · by_cases hi : Dec.isInt d
      · have : (10 : ℤ) ^ d.exp ∣ d.man := by
          rw [Dec.isInt, decide_eq_true_eq] at hi
          exact Int.dvd_of_emod_eq_zero hi
        rw [roundedDepth, if_pos (by rwa [Dec.isInt] at hi ⊢), Dec.canon]
        simp only
        rw [canonAux_isInt d.exp d.man this]
        omega
      · rw [roundedDepth, if_neg hi, Dec.canon]
        exact canonAux_exp_le _ _
    · rw [Dec.canon]
      exact canonAux_done _ _
    · intro hi
      have hdvd : (10 : ℤ) ^ d.exp ∣ d.man := by
        rw [Dec.isInt, decide_eq_true_eq] at hi
        exact Int.dvd_of_emod_eq_zero hi
      rw [roundedDepth, if_pos hi, Dec.canon]
      exact canonAux_isInt d.exp d.man hdvd
    · by_cases hi : Dec.isInt d
      · rw [if_pos hi, roundedDepth, if_pos hi, Dec.canon_toRat]
      · rw [if_neg hi, roundedDepth, if_neg hi, Dec.canon_toRat, Dec.round2_toRat]
  · intro hn hu ht hp
    cases v with
    | null => exact absurd rfl hn
    | undef => exact absurd rfl hu
    | str s => simp [formatDepth, ht, hp]
    | num dd => simp [formatDepth, ht, hp]

/-- Witness for C2: a padded decimal string is rounded and suffixed,
a non-numeric string is returned verbatim without the suffix. -/
theorem formatDepth_spec_witness :
    formatDepth (.str " 3.100 ") = "3.1 m" ∧ formatDepth (.str "abc") = "abc" := by
  constructor
  · have h := ((formatDepth_spec (.str " 3.100 ")).2.2.1 ⟨3100, 3⟩ (by decide) (by decide)
      (by decide)).1
    rw [h]
    rfl
  · have h := (formatDepth_spec (.str "abc")).2.2.2 (by decide) (by decide) (by decide) (by decide)
    rw [h]
    decide

/-! ## Depth parsing for the log strip -/

/-- C10: parseDepthValue returns null for null, undefined and blank
input, and otherwise parses the trimmed text after replacing the first
comma with a period, returning the finite value or null; a decimal
comma depth such as 4,5 therefore contributes its numeric thickness to
interval weights even though formatDepth renders the same text
verbatim without a unit suffix. -/
theorem parseDepthValue_spec (v : JSVal) :
    (parseDepthValue .null = none ∧ parseDepthValue .undef = none) ∧
    (jsTrim (jsValToString v) = "" → parseDepthValue v = none) ∧
    (v ≠ .null → v ≠ .undef → jsTrim (jsValToString v) ≠ "" →
      parseDepthValue v = jsParseNumber ⟨replaceFirstComma (jsTrim (jsValToString v)).data⟩) ∧
    (parseDepthValue (.str "4,5") = some ⟨45, 1⟩ ∧ (⟨45, 1⟩ : Dec).toRat = 9 / 2) ∧
    formatDepth (.str "4,5") = "4,5" ∧
    (computeIntervalSize (parseDepthValue (.str "4,5")) (parseDepthValue (.str "6"))).toRat
      = 3 / 2 := by
  have h45 : parseDepthValue (.str "4,5") = some ⟨45, 1⟩ := by decide
  have h6 : parseDepthValue (.str "6") = some ⟨6, 0⟩ := by decide
  refine ⟨⟨rfl, rfl⟩, ?_, ?_, ⟨h45, by norm_num [Dec.toRat]⟩, by decide, ?_⟩
  · intro he
    cases v with
    | null => rfl
    | undef => rfl
    | str a => simp [parseDepthValue, he]
    | num d => simp [parseDepthValue, he]
  · intro hn hu ht
    cases v with
    | null => exact absurd rfl hn
    | undef => exact absurd rfl hu
    | str a => simp [parseDepthValue, ht]
    | num d => simp [parseDepthValue, ht]
  · rw [h45, h6]
    norm_num [computeIntervalSize, Dec.sub, Dec.toRat]

/-- Witness for C10: a padded decimal-comma depth parses to 4.5. -/
theorem parseDepthValue_spec_witness :
    parseDepthValue (.str " 4,5 ") = some ⟨45, 1⟩ := by
  have h := (parseDepthValue_spec (.str " 4,5 ")).2.2.1 (by decide) (by decide) (by decide)
  rw [h]
  decide

/-! ## List rendering infrastructure -/

theorem foldl_append_eq_map {α β : Type} (f : α → β) :
    ∀ (l : List α) (acc : List β), l.foldl (fun a s => a ++ [f s]) acc = acc ++ l.map f := by
  intro l
  induction l with
  | nil => intro acc; simp
  | cons x xs ih => intro acc; simp [ih]

theorem foldl_add_eq_sum {α : Type} (f : α → ℚ) :
    ∀ (l : List α) (c : ℚ), l.foldl (fun a x => a + f x) c = c + (l.map f).sum := by
  intro l
  induction l with
  | nil => intro c; simp
  | cons x xs ih => intro c; rw [List.foldl_cons, ih, List.map_cons, List.sum_cons]; ring

/-! ## The loader filter -/

/-- C4: the loader keeps an interval exactly when its stringified
description is non-empty after trimming or one of its depth fields is
truthy (numeric 0 is falsy and alone does not retain an interval), and
then drops every entry whose filtered interval list is empty, so no
surviving entry has zero intervals. -/
theorem loadFilter_spec (payload : List Entry) :
    (∀ s : Section, keepSection s = true ↔
      (jsTrim (jsValToString (orElseVal s.description (.str ""))) ≠ "" ∨
        truthy s.from_depth = true ∨ truthy s.to_depth = true)) ∧
    filterEntries payload
      = (payload.filter fun e =>
          !((e.sections.getD []).filter keepSection).isEmpty).map filterEntrySections ∧
    (∀ e ∈ filterEntries payload, ∃ l, e.sections = some l ∧ l ≠ []) ∧
    keepSection { from_depth := .num ⟨0, 0⟩, to_depth := .num ⟨0, 0⟩, description := .str " " }
      = false := by
  have hpred : ∀ e : Entry,
      (!((filterEntrySections e).sections.getD []).isEmpty)
        = !((e.sections.getD []).filter keepSection).isEmpty := by
    intro e
    simp [filterEntrySections]
  refine ⟨?_, ?_, ?_, by decide⟩
  · intro s
    simp only [keepSection, Bool.or_eq_true, Bool.not_eq_true', beq_eq_false_iff_ne, ne_eq]
    tauto
  · rw [filterEntries, List.filter_map]
    have hfun : ((fun e : Entry => !(e.sections.getD []).isEmpty) ∘ filterEntrySections)
        = fun e : Entry => !((e.sections.getD []).filter keepSection).isEmpty := by
      funext e
      exact hpred e
    rw [hfun]
  · intro e he
    rw [filterEntries] at he
    obtain ⟨hmem, hkeep⟩ := List.mem_filter.mp he
    obtain ⟨e0, _, rfl⟩ := List.mem_map.mp hmem
    refine ⟨(e0.sections.getD []).filter keepSection, rfl, ?_⟩
    rw [hpred e0] at hkeep
    simp only [Bool.not_eq_true', List.isEmpty_eq_false] at hkeep
    simpa [filterEntrySections] using hkeep

/-- Witness for C4: an interval with a truthy depth is kept. -/
theorem loadFilter_spec_witness :
    keepSection { from_depth := .num ⟨0, 0⟩, to_depth := .num ⟨5, 0⟩, description := .str " " }
      = true :=
  ((loadFilter_spec []).1 _).mpr (Or.inr (Or.inr (by decide)))

/-! ## Rendering order and proportional shares -/

/-- C9: the intervals rendered, as table rows and as log-strip bands,
are exactly the received intervals that survive the discard rule, in
the same relative order: the kept list is an order-preserving sublist
of the received list, and each renderer emits exactly one row per kept
interval, positionally. -/
theorem renderOrder_spec (e : Entry) :
    ((filterEntrySections e).sections
        = some ((e.sections.getD []).filter keepSection)) ∧
    List.Sublist ((e.sections.getD []).filter keepSection) (e.sections.getD []) ∧
    (∀ sections : List Section,
      createSectionTableRows sections = sections.map sectionRow ∧
      (createSectionTableRows sections).length = sections.length ∧
      createLithologyLogRows sections
        = (logIntervals sections).map (fun i =>
            { share := i.size.toRat / logTotalSize sections
              fromText := formatDepth i.sec.from_depth
              toText := formatDepth i.sec.to_depth
              label := (inferLithologySymbol i.sec.description).label
              descr := i.sec.description }) ∧
      (createLithologyLogRows sections).length = sections.length ∧
      (logIntervals sections).map (fun i => i.sec) = sections) := by
  refine ⟨rfl, List.filter_sublist _, ?_⟩
  intro sections
  have htab : createSectionTableRows sections = sections.map sectionRow := by
    rw [createSectionTableRows, foldl_append_eq_map]
    simp
  have hlog : createLithologyLogRows sections
      = (logIntervals sections).map (fun i =>
          { share := i.size.toRat / logTotalSize sections
            fromText := formatDepth i.sec.from_depth
            toText := formatDepth i.sec.to_depth
            label := (inferLithologySymbol i.sec.description).label
            descr := i.sec.description }) := by
    rw [createLithologyLogRows, foldl_append_eq_map]
    simp
  have hsec : (logIntervals sections).map (fun i => i.sec) = sections := by
    rw [logIntervals, List.map_map]
    exact List.map_id sections
  refine ⟨htab, by rw [htab]; simp, hlog, by rw [hlog]; simp [logIntervals], hsec⟩

/-- C8: the total weight dividing each interval's visual share is the
sum of the entry's interval weights, or the interval count when that
sum is zero, and every rendered share is the interval's own weight
divided by this total. -/
theorem logWeight_spec (sections : List Section) :
    (logTotalSize sections
        = ((logIntervals sections).map (fun i => i.size.toRat)).sum ∨
      (((logIntervals sections).map (fun i => i.size.toRat)).sum = 0 ∧
        logTotalSize sections = sections.length)) ∧
    (createLithologyLogRows sections).map (fun r => r.share)
      = (logIntervals sections).map (fun i => i.size.toRat / logTotalSize sections) := by
  have hfold : (logIntervals sections).foldl (fun a i => a + i.size.toRat) 0
      = ((logIntervals sections).map (fun i => i.size.toRat)).sum := by
    rw [foldl_add_eq_sum]
    ring
  constructor
  · rw [logTotalSize]
    simp only [hfold]
    by_cases hz : ((logIntervals sections).map (fun i => i.size.toRat)).sum = 0
    · right
      simp [hz]
    · left
      simp [hz]
  · rw [createLithologyLogRows, foldl_append_eq_map]
    simp [List.map_map]

/-! ## The loader state machine -/

theorem listPrefixOf_self : ∀ l : List Char, listPrefixOf l l = true := by
  intro l
  induction l with
  | nil => rfl
  | cons c rest ih => simp [listPrefixOf, ih]

theorem listSearch_append (n : List Char) :
    ∀ pre : List Char, listSearch n (pre ++ n) = true := by
  intro pre
  induction pre with
  | nil =>
    cases n with
    | nil => rfl
    | cons c rest => simp [listSearch, listPrefixOf_self]
  | cons p rest ih => simp [listSearch, ih]

theorem strContains_append (a b : String) : strContains (a ++ b) b = true := by
  rw [strContains, String.data_append]
  exact listSearch_append _ _

/-- C5: a fetch attempt ends in the error state exactly when the
response status is non-success or an exception was thrown; a
non-success status puts the numeric status code in the error message,
a thrown exception puts its message text there, and in both cases the
success and empty classes are removed. -/
theorem loadError_spec (o : FetchOutcome) (s : UIState) :
    ((loadLithology o s).error = true ↔
      ((∃ msg, o = .thrown msg) ∨
        ∃ status body, o = .response status body ∧
          (responseOk status = false ∨ ∃ m, body = Except.error m))) ∧
    ((loadLithology o s).error = true →
      (loadLithology o s).success = false ∧ (loadLithology o s).empty = false) ∧
    (∀ msg, o = .thrown msg →
      strContains (loadLithology o s).statusText msg = true) ∧
    (∀ status body, o = .response status body → responseOk status = false →
      strContains (loadLithology o s).statusText (natStr status) = true) ∧
    (∀ status m, o = .response status (Except.error m) → responseOk status = true →
      strContains (loadLithology o s).statusText m = true) := by
  cases o with
  | thrown msg =>
    have heq : loadLithology (.thrown msg) s = setErrorState s msg := rfl
    refine ⟨?_, ?_, ?_, ?_, ?_⟩
    · rw [heq]
      exact ⟨fun _ => Or.inl ⟨msg, rfl⟩, fun _ => rfl⟩
    · intro _
      rw [heq]
      exact ⟨rfl, rfl⟩
    · intro m hm
      injection hm with h1
      subst h1
      rw [heq]
      exact strContains_append "Error loading lithology sections: " _
    · intro st b hb
      exact absurd hb (by simp)
    · intro st m hb
      exact absurd hb (by simp)
  | response status body =>
    by_cases hok : responseOk status = true
    · cases body with
      | error m =>
        have heq : loadLithology (.response status (.error m)) s = setErrorState s m := by
          simp [loadLithology, hok]
        refine ⟨?_, ?_, ?_, ?_, ?_⟩
        · rw [heq]
          exact ⟨fun _ => Or.inr ⟨status, Except.error m, rfl, Or.inr ⟨m, rfl⟩⟩, fun _ => rfl⟩
        · intro _
          rw [heq]
          exact ⟨rfl, rfl⟩
        · intro msg hm
          exact absurd hm (by simp)
        · intro st b hbeq hbad
          injection hbeq with h1 h2
          subst h1
          rw [hok] at hbad
          exact absurd hbad (by simp)
        · intro st m2 hbeq hok2
          injection hbeq with h1 h2
          subst h1
          injection h2 with h3
          subst h3
          rw [heq]
          exact strContains_append "Error loading lithology sections: " m
      | ok payload =>
        have herr : (loadLithology (.response status (.ok payload)) s).error = false := by
          cases payload with
          | none => simp [loadLithology, hok, setEmptyNoLogs]
          | some es =>
            by_cases hes : es.isEmpty
            · simp [loadLithology, hok, hes, setEmptyNoLogs]
            · by_cases hf : (filterEntries es).isEmpty
              · simp [loadLithology, hok, hes, hf]
              · simp [loadLithology, hok, hes, hf]
        refine ⟨?_, ?_, ?_, ?_, ?_⟩
        · rw [herr]
          constructor
          · intro h
            exact absurd h (by simp)
          · rintro (⟨m, hm⟩ | ⟨st, b, hbeq, hbad⟩)
            · exact absurd hm (by simp)
            · injection hbeq with h1 h2
              subst h1
              rcases hbad with hbad | ⟨m, hm⟩
              · rw [hok] at hbad
                exact absurd hbad (by simp)
              · rw [← h2] at hm
                exact absurd hm (by simp)
        · intro h
          rw [herr] at h
          exact absurd h (by simp)
        · intro msg hm
          exact absurd hm (by simp)
        · intro st b hbeq hbad
          injection hbeq with h1 h2
          subst h1
          rw [hok] at hbad
          exact absurd hbad (by simp)
        · intro st m hbeq hok2
          injection hbeq with h1 h2
          exact absurd h2 (by simp)
    · have hb : responseOk status = false := by simpa using hok
      have heq : loadLithology (.response status body) s
          = setErrorState s ("Server responded with status " ++ natStr status) := by
        simp [loadLithology, hb]
      refine ⟨?_, ?_, ?_, ?_, ?_⟩
      · rw [heq]
        exact ⟨fun _ => Or.inr ⟨status, body, rfl, Or.inl hb⟩, fun _ => rfl⟩
      · intro _
        rw [heq]
        exact ⟨rfl, rfl⟩
      · intro msg hm
        exact absurd hm (by simp)
      · intro st b hbeq _
        injection hbeq with h1 h2
        subst h1
        rw [heq]
        show strContains ("Error loading lithology sections: "
          ++ ("Server responded with status " ++ natStr status)) (natStr status) = true
        rw [← String.append_assoc]
        exact strContains_append _ _
      · intro st m hbeq hok2
        injection hbeq with h1 h2
        subst h1
        rw [hok2] at hb
        exact absurd hb (by simp)

/-- Witness for C5: a 500 response ends in the error state with the
status code in the message. -/
theorem loadError_spec_witness :
    (loadLithology (.response 500 (.ok none)) ⟨"", false, false, false, true, []⟩).error = true ∧
    strContains (loadLithology (.response 500 (.ok none))
      ⟨"", false, false, false, true, []⟩).statusText (natStr 500) = true := by
  have h := loadError_spec (.response 500 (.ok none)) ⟨"", false, false, false, true, []⟩
  exact ⟨h.1.mpr (Or.inr ⟨500, Except.ok none, rfl, Or.inl (by decide)⟩),
    h.2.2.2.1 500 (Except.ok none) rfl (by decide)⟩

/-- C6: a successful fetch whose payload is not an array or is an empty
array ends in the empty state with the no-logs-available message and
the content area hidden; an array payload whose entries are all
dropped by interval filtering ends in the empty state with the
distinct no-interval-data message, also hidden. -/
theorem loadEmpty_spec (s : UIState) (status : Nat) :
    (∀ payload : Option (List Entry), responseOk status = true →
      (payload = none ∨ payload = some []) →
      (loadLithology (.response status (.ok payload)) s).empty = true ∧
      (loadLithology (.response status (.ok payload)) s).statusText
        = "No lithology logs are available yet." ∧
      (loadLithology (.response status (.ok payload)) s).entriesHidden = true ∧
      (loadLithology (.response status (.ok payload)) s).success = false ∧
      (loadLithology (.response status (.ok payload)) s).error = false) ∧
    (∀ es : List Entry, responseOk status = true → es ≠ [] → filterEntries es = [] →
      (loadLithology (.response status (.ok (some es))) s).empty = true ∧
      (loadLithology (.response status (.ok (some es))) s).statusText
        = "No lithology logs with interval data are available yet." ∧
      (loadLithology (.response status (.ok (some es))) s).entriesHidden = true ∧
      (loadLithology (.response status (.ok (some es))) s).success = false ∧
      (loadLithology (.response status (.ok (some es))) s).error = false) := by
  constructor
  · rintro payload hok (rfl | rfl)
    · refine ⟨?_, ?_, ?_, ?_, ?_⟩ <;> simp [loadLithology, hok, setEmptyNoLogs]
    · refine ⟨?_, ?_, ?_, ?_, ?_⟩ <;> simp [loadLithology, hok, setEmptyNoLogs]
  · intro es hok hne hf
    have hes : es.isEmpty = false := by simpa using hne
    have hfe : (filterEntries es).isEmpty = true := by simpa using hf
    refine ⟨?_, ?_, ?_, ?_, ?_⟩ <;> simp [loadLithology, hok, hes, hfe]

/-- Witness for C6: an empty array payload produces the empty state. -/
theorem loadEmpty_spec_witness :
    (loadLithology (.response 200 (.ok (some []))) ⟨"", false, false, false, false, []⟩).empty
      = true ∧
    (loadLithology (.response 200 (.ok (some [])))
        ⟨"", false, false, false, false, []⟩).statusText
      = "No lithology logs are available yet." := by
  have h := (loadEmpty_spec ⟨"", false, false, false, false, []⟩ 200).1 (some [])
    (by decide) (Or.inr rfl)
  exact ⟨h.1, h.2.1⟩

/-- C7: a non-empty filtered entry collection ends in the success state,
renders exactly one card per surviving entry in payload order, shows the
content area, and reports a count message whose noun is singular exactly
when the count is one. -/
theorem loadSuccess_spec (s : UIState) (status : Nat) (es : List Entry)
    (hok : responseOk status = true) (hne : es ≠ []) (hf : filterEntries es ≠ []) :
    (loadLithology (.response status (.ok (some es))) s).success = true ∧
    (loadLithology (.response status (.ok (some es))) s).error = false ∧
    (loadLithology (.response status (.ok (some es))) s).empty = false ∧
    (loadLithology (.response status (.ok (some es))) s).entriesHidden = false ∧
    (loadLithology (.response status (.ok (some es))) s).rendered = filterEntries es ∧
    ∃ word, (loadLithology (.response status (.ok (some es))) s).statusText
        = natStr (filterEntries es).length ++ " " ++ word ++ " with lithological data loaded." ∧
      (word = "log" ∨ word = "logs") ∧
      (word = "log" ↔ (filterEntries es).length = 1) := by
  have hes : es.isEmpty = false := by simpa using hne
  have hfe : (filterEntries es).isEmpty = false := by simpa using hf
  refine ⟨by simp [loadLithology, hok, hes, hfe], by simp [loadLithology, hok, hes, hfe],
    by simp [loadLithology, hok, hes, hfe], by simp [loadLithology, hok, hes, hfe],
    by simp [loadLithology, hok, hes, hfe], ?_⟩
  by_cases hn : (filterEntries es).length = 1
  · refine ⟨"log", by simp [loadLithology, hok, hes, hfe, hn], Or.inl rfl, ?_⟩
    simp [hn]
  · refine ⟨"logs", by simp [loadLithology, hok, hes, hfe, hn], Or.inr rfl, ?_⟩
    constructor
    · intro h
      exact absurd h (by decide)
    · intro h
      exact absurd h hn

/-- A one-entry payload with one fully populated interval, used to
exercise the success path. -/
def sampleEntry : Entry :=
  { title := .str "Borehole 1"
    tab_name := .str "B1"
    description := .str "Example log"
    pdf_filename := .str "b1.pdf"
    sections := some [{ from_depth := .str "1", to_depth := .str "2", description := .str "glina" }] }

/-- Witness for C7: one surviving entry yields the success state and the
singular count message. -/
theorem loadSuccess_spec_witness :
    (loadLithology (.response 200 (.ok (some [sampleEntry])))
        ⟨"", false, false, false, true, []⟩).success = true ∧
    (loadLithology (.response 200 (.ok (some [sampleEntry])))
        ⟨"", false, false, false, true, []⟩).statusText
      = "1 log with lithological data loaded." := by
  have h := loadSuccess_spec ⟨"", false, false, false, true, []⟩ 200 [sampleEntry]
    (by decide) (by decide) (by decide)
  refine ⟨h.1, ?_⟩
  obtain ⟨w, hw, hor, hiff⟩ := h.2.2.2.2.2
  have hlen : (filterEntries [sampleEntry]).length = 1 := by decide
  have hwlog : w = "log" := hiff.mpr hlen
  rw [hw, hwlog, hlen]
  decide

end Lithology
